import Mathlib

/-!
Connection actor of `service/serviceConn.go`

A shallow embedding of `Conn` and of its three goroutines (`ReadInLoop`,
`WriteInLoop`, `CallBackInLoop`) as an interleaving transition system.

* Every goroutine has a program counter; one `Action` is one atomic step of
  one goroutine, or one move of the environment (the server closing
  `chanExit`, an outside caller of `Close` or `WriteBytesToChan`, the outcome
  of `ReadBytes`, of `conn.Write` or of the `MessageCome` hook).
* A Go `select` with several ready cases may take any of them: each case is
  its own action, enabled when the case is ready.
* Channels are FIFO lists bounded by their capacity; a channel of capacity
  zero hands the value directly to the parked receiver.
* `sync.Once` is the field `once`; the body of `Close` advances statement by
  statement, so the states in the middle of the close path are states of
  the system.
* Everything the program does to the outside world (socket writes, hooks,
  log entries, wait-group calls) is appended to `trace`.

The hooks `ConnectCome` and `CloseCome` are taken to return normally;
`MessageCome` may return nil, return an error, fault, and call
`WriteBytesToChan` any number of times before that.
-/

set_option linter.unusedTactic false
set_option linter.unreachableTactic false
set_option linter.unnecessarySeqFocus false
set_option linter.unusedVariables false

namespace Service

/-- A Go byte slice, `none` being the nil slice. -/
abbrev GoBytes := Option (List Nat)

/-- Go's builtin `len` on a byte slice. -/
def len (b : GoBytes) : Nat :=
  match b with
  | none => 0
  | some l => l.length

/-- A Go `error` value, identified by its message. -/
abbrev GoError := String

/-- The three goroutines started by `Conn.Go`. -/
inductive Loop
  | read
  | write
  | callback
  deriving DecidableEq, Repr

/-- Effects visible outside the connection. -/
inductive Event
  | wgAdd (l : Loop)                    -- c.srv.wg.Add(1)
  | wgDone (l : Loop)                   -- c.srv.wg.Done()
  | readBytes (b : GoBytes)             -- ReadBytes returned (b, nil)
  | messageCome (b : GoBytes)           -- callback.MessageCome(c, b) invoked
  | messageErr (b : GoBytes) (e : GoError) -- that invocation returned error e
  | enqueued (b : GoBytes)              -- WriteBytesToChan(b) returned nil
  | connWrite (b : GoBytes)             -- c.conn.Write(b) issued
  | logError (l : Loop) (e : GoError)   -- l4g.Error(..., e)
  | logStack (l : Loop)                 -- l4g.Error(st(false))
  | setClosed                           -- c.closed = true
  | closeSignal                         -- close(c.closeChan)
  | connClose                           -- c.conn.Close()
  | closeCome                           -- c.srv.callback.CloseCome(c)
  deriving DecidableEq, Repr

/-- State of `c.closeOnce` together with the position inside the function
passed to `Do` (lines 58-63). -/
inductive Once
  | idle          -- Do never entered
  | entered       -- Do entered, line 59 not yet run
  | marked        -- after line 59
  | signalled     -- after line 60
  | socketClosed  -- after line 61
  | done          -- after line 62, Do has returned
  deriving DecidableEq, Repr

/-- Position inside the deferred function of a loop (lines 102-131, 155-184,
206-235). -/
inductive Teardown
  | deferred (err : Option GoError) (panicking : Bool) -- entry, with the outer err
  | closeCall     -- before c.Close()
  | inClose       -- inside c.Close(), waiting for closeOnce.Do to return
  | afterClose    -- before c.srv.wg.Done()
  | exited        -- goroutine finished
  deriving DecidableEq, Repr

/-- Program counter of `ReadInLoop`. -/
inductive ReadPc
  | unborn                  -- Go() not called
  | start                   -- before line 100
  | top                     -- line 134, select with default
  | reading                 -- line 142, inside ReadBytes
  | pushing (b : GoBytes)   -- line 147, sending b on receiveChan
  | down (t : Teardown)
  deriving DecidableEq, Repr

/-- Program counter of `WriteInLoop`. -/
inductive WritePc
  | unborn
  | start                   -- before line 152
  | top                     -- line 187, select
  | writing (b : GoBytes)   -- line 193, inside conn.Write(b)
  | down (t : Teardown)
  deriving DecidableEq, Repr

/-- Program counter of `CallBackInLoop`. -/
inductive CallPc
  | unborn
  | start                       -- before line 203
  | top                         -- line 238, select
  | inCb (b : GoBytes)          -- line 244, inside MessageCome(c, b)
  | inCbWrite (b x : GoBytes)   -- inside MessageCome, at the select of WriteBytesToChan(x)
  | down (t : Teardown)
  deriving DecidableEq, Repr

/-- The connection, the fields of its server that it uses, its goroutines and
the effects so far. -/
structure Sys where
  sendLimit : Nat             -- srv.config.SendLimit
  receiveLimit : Nat          -- srv.config.ReceiveLimit
  chanExit : Bool             -- srv.chanExit has been closed
  wg : Int                    -- counter of srv.wg
  once : Once                 -- c.closeOnce
  closed : Bool               -- c.closed
  closeChan : Bool            -- c.closeChan has been closed
  connClosed : Bool           -- c.conn has been closed
  sendChan : List GoBytes     -- buffer of c.sendChan, head is oldest
  receiveChan : List GoBytes  -- buffer of c.receiveChan, head is oldest
  rd : ReadPc
  wr : WritePc
  cb : CallPc
  crashed : Bool              -- a panic left a goroutine unrecovered
  trace : List Event
  deriving DecidableEq, Repr

/-- `NewConn` (lines 47-55): open connection, empty channels, no goroutine. -/
def NewConn (sendLimit receiveLimit : Nat) : Sys :=
  { sendLimit := sendLimit, receiveLimit := receiveLimit, chanExit := false, wg := 0,
    once := .idle, closed := false, closeChan := false, connClosed := false,
    sendChan := [], receiveChan := [], rd := .unborn, wr := .unborn, cb := .unborn,
    crashed := false, trace := [] }

/-- Append one effect to the trace. -/
def emit (e : Event) (s : Sys) : Sys :=
  { s with trace := s.trace ++ [e] }

/-! ## Close, IsClosed -/

/-- One statement of the function run by `closeOnce.Do` (lines 59-62). -/
def onceStep (s : Sys) : Option Sys :=
  match s.once with
  | .entered => some (emit .setClosed { s with closed := true, once := .marked })
  | .marked => some (emit .closeSignal { s with closeChan := true, once := .signalled })
  | .signalled => some (emit .connClose { s with connClosed := true, once := .socketClosed })
  | .socketClosed => some (emit .closeCome { s with once := .done })
  | _ => none

/-- Entry of `closeOnce.Do`: the first caller wins the right to run the body. -/
def closeEnter (s : Sys) : Sys :=
  if s.once = .idle then { s with once := .entered } else s

/-- Run the body of the once to its end, at most `n` statements. -/
def runOnce : Nat → Sys → Sys
  | 0, s => s
  | n + 1, s =>
    match onceStep s with
    | some t => runOnce n t
    | none => s

/-- `Conn.Close` (lines 57-64) as one uninterrupted call: `Do` returns when
the body has completed, whoever runs it. -/
def Close (s : Sys) : Sys :=
  runOnce 4 (closeEnter s)

/-- `Conn.IsClosed` (lines 70-72). -/
def IsClosed (s : Sys) : Bool :=
  s.closed

/-! ## Channel sends -/

/-- A receiver parked at a select is woken when either signal fires, so a
direct hand-off needs both signals unfired. -/
def noSignal (s : Sys) : Prop :=
  s.chanExit = false ∧ s.closeChan = false

instance (s : Sys) : Decidable (noSignal s) :=
  inferInstanceAs (Decidable (_ ∧ _))

/-- The send `c.sendChan <- b` can proceed: room in the buffer, or the write
loop parked at its select with an empty buffer. -/
def sendReady (s : Sys) : Prop :=
  s.sendChan.length < s.sendLimit ∨ (s.sendChan = [] ∧ s.wr = .top ∧ noSignal s)

instance (s : Sys) : Decidable (sendReady s) :=
  inferInstanceAs (Decidable (_ ∨ _))

/-- Effect of `c.sendChan <- b` when it proceeds. A hand-off puts the write
loop at line 193 with `b`. -/
def pushSend (b : GoBytes) (s : Sys) : Sys :=
  if s.sendChan.length < s.sendLimit then
    emit (.enqueued b) { s with sendChan := s.sendChan ++ [b] }
  else
    emit (.connWrite b) (emit (.enqueued b) { s with wr := .writing b })

/-- The send `c.receiveChan <- b` can proceed. -/
def receiveReady (s : Sys) : Prop :=
  s.receiveChan.length < s.receiveLimit ∨ (s.receiveChan = [] ∧ s.cb = .top ∧ noSignal s)

instance (s : Sys) : Decidable (receiveReady s) :=
  inferInstanceAs (Decidable (_ ∨ _))

/-- Effect of `c.receiveChan <- b` when it proceeds. A hand-off puts the
dispatch loop at line 244 with `b`. -/
def pushReceive (b : GoBytes) (s : Sys) : Sys :=
  if s.receiveChan.length < s.receiveLimit then
    { s with receiveChan := s.receiveChan ++ [b] }
  else
    emit (.messageCome b) { s with cb := .inCb b }

/-! ## WriteBytesToChan and the default callback -/

/-- Result of a call that may block. -/
inductive Outcome
  | ret (err : Option GoError) (s : Sys)
  | blocks
  deriving DecidableEq, Repr

/-- The error of lines 76 and 84. -/
def errClosed : GoError := "use of closed network connection"

/-- The select of `WriteBytesToChan` (lines 80-86); `pick` settles the choice
when both cases are ready. -/
def writeSelect (s : Sys) (bytes : GoBytes) (pick : Bool) : Outcome :=
  if sendReady s then
    if s.closeChan = true ∧ pick = false then .ret (some errClosed) s
    else .ret none (pushSend bytes s)
  else if s.closeChan = true then .ret (some errClosed) s
  else .blocks

/-- `Conn.WriteBytesToChan` (lines 74-87) as one uninterrupted call. -/
def WriteBytesToChan (s : Sys) (bytes : GoBytes) (pick : Bool) : Outcome :=
  if IsClosed s then .ret (some errClosed) s
  else writeSelect s bytes pick

/-- A caller that ignores the returned error, as line 39 does. -/
def Outcome.discardErr : Outcome → Outcome
  | .ret _ t => .ret none t
  | .blocks => .blocks

/-- `ConnCallBack.MessageCome` (lines 31-41): the result of `WriteBytesToChan`
is discarded, so `err` stays nil on that path. -/
def MessageCome (s : Sys) (bytes : GoBytes) (pick : Bool) : Outcome :=
  if bytes = none ∨ len bytes = 0 then .ret (some "error package") s
  else (WriteBytesToChan s bytes pick).discardErr

/-! ## The deferred teardown shared by the three loops -/

/-- Go's `recover()` called directly by a deferred function: yields whether a
panic was unwinding, and whether one still is afterwards. -/
def recover (panicking : Bool) : Bool × Bool :=
  (panicking, false)

/-- Steps of the deferred function. -/
inductive TdAct
  | logs        -- `if err != nil` log, `recover()` and stack log
  | closeEnter  -- call c.Close(): enter closeOnce.Do
  | closeRet    -- closeOnce.Do returns
  | wgDone      -- c.srv.wg.Done(), goroutine ends
  deriving DecidableEq, Repr

/-- One step of the deferred function of loop `l` at position `t`. -/
def teardown (l : Loop) (a : TdAct) (t : Teardown) (s : Sys) : Option (Teardown × Sys) :=
  match a with
  | .logs =>
    match t with
    | .deferred err panicking =>
      let s1 := match err with
        | some e => emit (.logError l e) s
        | none => s
      let r := recover panicking
      let s2 := if r.1 then emit (.logStack l) s1 else s1
      some (.closeCall, { s2 with crashed := s2.crashed || r.2 })
    | _ => none
  | .closeEnter =>
    if t = .closeCall then some (.inClose, closeEnter s) else none
  | .closeRet =>
    if t = .inClose ∧ s.once = .done then some (.afterClose, s) else none
  | .wgDone =>
    if t = .afterClose then some (.exited, emit (.wgDone l) { s with wg := s.wg - 1 }) else none

/-! ## ReadInLoop -/

/-- Steps of `ReadInLoop`. -/
inductive ReadAct
  | start                    -- line 100
  | selExit                  -- lines 135-136
  | selClose                 -- lines 137-138
  | selDefault               -- line 139
  | readOk (b : GoBytes)     -- line 142, ReadBytes returns (b, nil)
  | readErr (e : GoError)    -- lines 142-144, ReadBytes returns an error
  | readPanic                -- line 142, ReadBytes faults
  | push                     -- line 147
  | td (a : TdAct)           -- lines 102-131
  deriving DecidableEq, Repr

/-- `Conn.ReadInLoop` (lines 99-149). The `err` of line 142 is declared by
`:=` inside the loop body, so the `err` of line 101 read by the deferred
function stays nil. -/
def ReadInLoop (a : ReadAct) (s : Sys) : Option Sys :=
  match a with
  | .start =>
    if s.rd = .start then some (emit (.wgAdd .read) { s with wg := s.wg + 1, rd := .top })
    else none
  | .selExit =>
    if s.rd = .top ∧ s.chanExit = true then some { s with rd := .down (.deferred none false) }
    else none
  | .selClose =>
    if s.rd = .top ∧ s.closeChan = true then some { s with rd := .down (.deferred none false) }
    else none
  | .selDefault =>
    if s.rd = .top ∧ s.chanExit = false ∧ s.closeChan = false then some { s with rd := .reading }
    else none
  | .readOk b =>
    if s.rd = .reading then some (emit (.readBytes b) { s with rd := .pushing b }) else none
  | .readErr _ =>
    if s.rd = .reading then some { s with rd := .down (.deferred none false) } else none
  | .readPanic =>
    if s.rd = .reading then some { s with rd := .down (.deferred none true) } else none
  | .push =>
    match s.rd with
    | .pushing b => if receiveReady s then some (pushReceive b { s with rd := .top }) else none
    | _ => none
  | .td a =>
    match s.rd with
    | .down t => (teardown .read a t s).map fun p => { p.2 with rd := .down p.1 }
    | _ => none

/-! ## WriteInLoop -/

/-- Steps of `WriteInLoop`. -/
inductive WriteAct
  | start                    -- line 152
  | selExit                  -- lines 188-189
  | selClose                 -- lines 190-191
  | recv                     -- line 192
  | writeOk                  -- line 193, conn.Write returns nil
  | writeErr (e : GoError)   -- lines 193-195, conn.Write returns an error
  | writePanic               -- line 193, conn.Write faults
  | td (a : TdAct)           -- lines 155-184
  deriving DecidableEq, Repr

/-- `Conn.WriteInLoop` (lines 151-199). The `err` of line 193 is local to the
`if`; the error is logged at line 194 and the `err` of line 153 stays nil. -/
def WriteInLoop (a : WriteAct) (s : Sys) : Option Sys :=
  match a with
  | .start =>
    if s.wr = .start then some (emit (.wgAdd .write) { s with wg := s.wg + 1, wr := .top })
    else none
  | .selExit =>
    if s.wr = .top ∧ s.chanExit = true then some { s with wr := .down (.deferred none false) }
    else none
  | .selClose =>
    if s.wr = .top ∧ s.closeChan = true then some { s with wr := .down (.deferred none false) }
    else none
  | .recv =>
    match s.sendChan with
    | b :: rest =>
      if s.wr = .top then some (emit (.connWrite b) { s with sendChan := rest, wr := .writing b })
      else none
    | [] => none
  | .writeOk =>
    match s.wr with
    | .writing _ => some { s with wr := .top }
    | _ => none
  | .writeErr e =>
    match s.wr with
    | .writing _ => some (emit (.logError .write e) { s with wr := .down (.deferred none false) })
    | _ => none
  | .writePanic =>
    match s.wr with
    | .writing _ => some { s with wr := .down (.deferred none true) }
    | _ => none
  | .td a =>
    match s.wr with
    | .down t => (teardown .write a t s).map fun p => { p.2 with wr := .down p.1 }
    | _ => none

/-! ## CallBackInLoop -/

/-- Steps of `CallBackInLoop`, those of the `MessageCome` hook included. -/
inductive CallAct
  | start                    -- line 203
  | selExit                  -- lines 239-240
  | selClose                 -- lines 241-242
  | recv                     -- lines 243-244, MessageCome is invoked
  | cbWrite (x : GoBytes)    -- hook calls WriteBytesToChan(x), line 75 finds it open
  | cbWriteSend              -- line 81 taken
  | cbWriteClosed            -- line 83 taken
  | cbRet                    -- hook returns nil
  | cbErr (e : GoError)      -- hook returns an error, lines 244-245
  | cbPanic                  -- hook faults
  | td (a : TdAct)           -- lines 206-235
  deriving DecidableEq, Repr

/-- `Conn.CallBackInLoop` (lines 201-249). Line 244 assigns the `err` of line
204, which the deferred function reads. -/
def CallBackInLoop (a : CallAct) (s : Sys) : Option Sys :=
  match a with
  | .start =>
    if s.cb = .start then some (emit (.wgAdd .callback) { s with wg := s.wg + 1, cb := .top })
    else none
  | .selExit =>
    if s.cb = .top ∧ s.chanExit = true then some { s with cb := .down (.deferred none false) }
    else none
  | .selClose =>
    if s.cb = .top ∧ s.closeChan = true then some { s with cb := .down (.deferred none false) }
    else none
  | .recv =>
    match s.receiveChan with
    | b :: rest =>
      if s.cb = .top then
        some (emit (.messageCome b) { s with receiveChan := rest, cb := .inCb b })
      else none
    | [] => none
  | .cbWrite x =>
    match s.cb with
    | .inCb b => if IsClosed s = false then some { s with cb := .inCbWrite b x } else none
    | _ => none
  | .cbWriteSend =>
    match s.cb with
    | .inCbWrite b x => if sendReady s then some (pushSend x { s with cb := .inCb b }) else none
    | _ => none
  | .cbWriteClosed =>
    match s.cb with
    | .inCbWrite b _ => if s.closeChan = true then some { s with cb := .inCb b } else none
    | _ => none
  | .cbRet =>
    match s.cb with
    | .inCb _ => some { s with cb := .top }
    | _ => none
  | .cbErr e =>
    match s.cb with
    | .inCb b => some (emit (.messageErr b e) { s with cb := .down (.deferred (some e) false) })
    | _ => none
  | .cbPanic =>
    match s.cb with
    | .inCb _ => some { s with cb := .down (.deferred none true) }
    | _ => none
  | .td a =>
    match s.cb with
    | .down t => (teardown .callback a t s).map fun p => { p.2 with cb := .down p.1 }
    | _ => none

/-! ## The whole system -/

/-- One atomic step of a goroutine or of the environment. -/
inductive Action
  | go (accept : Bool)        -- Conn.Go, with the answer of ConnectCome
  | shutdown                  -- the server closes chanExit
  | extClose                  -- Close() called from outside the loops
  | extSend (b : GoBytes)     -- an outside WriteBytesToChan(b) takes line 81
  | once                      -- the winner of closeOnce runs one statement
  | rd (a : ReadAct)
  | wr (a : WriteAct)
  | cb (a : CallAct)
  deriving DecidableEq, Repr

/-- `Conn.Go` (lines 89-97). -/
def Go (accept : Bool) (s : Sys) : Option Sys :=
  if s.rd = .unborn ∧ s.wr = .unborn ∧ s.cb = .unborn then
    if accept then some { s with rd := .start, wr := .start, cb := .start } else some s
  else none

/-- Transition function: `none` when the action is not enabled. -/
def step (a : Action) (s : Sys) : Option Sys :=
  match a with
  | .go accept => Go accept s
  | .shutdown => some { s with chanExit := true }
  | .extClose => some (closeEnter s)
  | .extSend b => if sendReady s then some (pushSend b s) else none
  | .once => onceStep s
  | .rd a => ReadInLoop a s
  | .wr a => WriteInLoop a s
  | .cb a => CallBackInLoop a s

/-- Run a schedule; `none` when some action of it is not enabled. -/
def run : List Action → Sys → Option Sys
  | [], s => some s
  | a :: as, s =>
    match step a s with
    | some t => run as t
    | none => none

/-- States some schedule reaches from a fresh connection. -/
def Reachable (s : Sys) : Prop :=
  ∃ (sl rl : Nat) (as : List Action), run as (NewConn sl rl) = some s

/-! ## Observations on the trace -/

/-- Frames returned by `ReadBytes`, oldest first. -/
def framesRead (tr : List Event) : List GoBytes :=
  tr.filterMap fun e => match e with
    | .readBytes b => some b
    | _ => none

/-- Arguments of the `MessageCome` invocations, oldest first. -/
def dispatched (tr : List Event) : List GoBytes :=
  tr.filterMap fun e => match e with
    | .messageCome b => some b
    | _ => none

/-- Buffers accepted by `WriteBytesToChan`, oldest first. -/
def accepted (tr : List Event) : List GoBytes :=
  tr.filterMap fun e => match e with
    | .enqueued b => some b
    | _ => none

/-- Payloads of the socket writes, oldest first. -/
def written (tr : List Event) : List GoBytes :=
  tr.filterMap fun e => match e with
    | .connWrite b => some b
    | _ => none

/-- Errors carried by the error log entries of loop `l`. -/
def errorsLogged (l : Loop) (tr : List Event) : List GoError :=
  tr.filterMap fun e => match e with
    | .logError k x => if k = l then some x else none
    | _ => none

/-- Buffer the read loop holds while sending on `receiveChan`. -/
def pendingPush (s : Sys) : List GoBytes :=
  match s.rd with
  | .pushing b => [b]
  | _ => []

/-! ## Invariants -/

/-- Number of statements of the once body already run. -/
def Once.stage : Once → Nat
  | .idle => 0
  | .entered => 0
  | .marked => 1
  | .signalled => 2
  | .socketClosed => 3
  | .done => 4

/-- The flags and the close effects agree with the position in the once body. -/
def OnceInv (s : Sys) : Prop :=
  s.closed = decide (1 ≤ s.once.stage) ∧
  s.closeChan = decide (2 ≤ s.once.stage) ∧
  s.connClosed = decide (3 ≤ s.once.stage) ∧
  s.trace.count .setClosed = (if 1 ≤ s.once.stage then 1 else 0) ∧
  s.trace.count .closeSignal = (if 2 ≤ s.once.stage then 1 else 0) ∧
  s.trace.count .connClose = (if 3 ≤ s.once.stage then 1 else 0) ∧
  s.trace.count .closeCome = (if 4 ≤ s.once.stage then 1 else 0)

/-- Both channels are FIFO and bounded: what went in is what came out followed
by what is still inside. -/
def FifoInv (s : Sys) : Prop :=
  framesRead s.trace = dispatched s.trace ++ s.receiveChan ++ pendingPush s ∧
  s.receiveChan.length ≤ s.receiveLimit ∧
  accepted s.trace = written s.trace ++ s.sendChan ∧
  s.sendChan.length ≤ s.sendLimit

/-- Position of loop `l` inside its deferred function, once its body has ended. -/
def tdOf (l : Loop) (s : Sys) : Option Teardown :=
  match l with
  | .read => match s.rd with
    | .down t => some t
    | _ => none
  | .write => match s.wr with
    | .down t => some t
    | _ => none
  | .callback => match s.cb with
    | .down t => some t
    | _ => none

/-- Loop `l` has run its `wg.Add(1)`. -/
def started (l : Loop) (s : Sys) : Bool :=
  match l with
  | .read => match s.rd with
    | .unborn => false
    | .start => false
    | _ => true
  | .write => match s.wr with
    | .unborn => false
    | .start => false
    | _ => true
  | .callback => match s.cb with
    | .unborn => false
    | .start => false
    | _ => true

/-- Loop `l` has run its `wg.Done()`. -/
def exited (l : Loop) (s : Sys) : Bool :=
  tdOf l s = some .exited

/-- Per-loop accounting: one `wg.Add` once started, one `wg.Done` once exited,
and `Close` has returned before `wg.Done()`. -/
def LoopInv (l : Loop) (s : Sys) : Prop :=
  s.trace.count (.wgAdd l) = (if started l s then 1 else 0) ∧
  s.trace.count (.wgDone l) = (if exited l s then 1 else 0) ∧
  (tdOf l s = some .afterClose ∨ tdOf l s = some .exited → s.once = .done)

/-- Number of `wg.Add(1)` calls in a trace. -/
def wgAdds (tr : List Event) : Nat :=
  tr.count (.wgAdd .read) + tr.count (.wgAdd .write) + tr.count (.wgAdd .callback)

/-- Number of `wg.Done()` calls in a trace. -/
def wgDones (tr : List Event) : Nat :=
  tr.count (.wgDone .read) + tr.count (.wgDone .write) + tr.count (.wgDone .callback)

/-- The wait counter is the number of `Add` minus the number of `Done`, and
no panic has escaped a goroutine. -/
def WgInv (s : Sys) : Prop :=
  s.crashed = false ∧ s.wg = (wgAdds s.trace : Int) - (wgDones s.trace : Int)

/-! ## Schedules used by the theorems -/

/-- The schedule by which an outside caller performs `Close` alone. -/
def closeSchedule (o : Once) : List Action :=
  .extClose :: List.replicate (4 - o.stage) .once

/-- A connection whose outbound queue of capacity one is full. -/
def fullSendQueue : Sys :=
  emit (.enqueued (some [7])) { NewConn 1 1 with sendChan := [some [7]] }

/-- The read loop fails on its first `ReadBytes` and its teardown starts the
close path, which has run line 59 only. -/
def midCloseSchedule : List Action :=
  [.go true, .rd .start, .rd .selDefault, .rd (.readErr "EOF"), .rd (.td .logs),
   .rd (.td .closeEnter), .once]

/-- The read loop fails on its first `ReadBytes` and runs its whole teardown. -/
def readErrSchedule : List Action :=
  [.go true, .rd .start, .rd .selDefault, .rd (.readErr "EOF"), .rd (.td .logs),
   .rd (.td .closeEnter), .once, .once, .once, .once, .rd (.td .closeRet), .rd (.td .wgDone)]

/-- Two frames arrive on a connection of inbound capacity one, the server
shuts down, the dispatch loop leaves on the shutdown signal and finishes its
teardown. -/
def stuckSchedule : List Action :=
  [.go true, .rd .start, .cb .start, .rd .selDefault, .rd (.readOk (some [1])), .rd .push,
   .rd .selDefault, .rd (.readOk (some [2])), .shutdown, .cb .selExit, .cb (.td .logs),
   .cb (.td .closeEnter), .once, .once, .once, .once, .cb (.td .closeRet), .cb (.td .wgDone)]

/-- State reached by `stuckSchedule`. -/
def stuckState : Sys :=
  { sendLimit := 1, receiveLimit := 1, chanExit := true, wg := 1, once := .done,
    closed := true, closeChan := true, connClosed := true, sendChan := [],
    receiveChan := [some [1]], rd := .pushing (some [2]), wr := .start,
    cb := .down .exited, crashed := false,
    trace := [.wgAdd .read, .wgAdd .callback, .readBytes (some [1]), .readBytes (some [2]),
      .setClosed, .closeSignal, .connClose, .closeCome, .wgDone .callback] }

/-- The read loop sends on a full inbound queue after the dispatch loop has
gone. -/
def Stuck (b : GoBytes) (s : Sys) : Prop :=
  s.rd = .pushing b ∧ s.cb = .down .exited ∧ s.receiveLimit ≤ s.receiveChan.length

/-- Step `a` of the deferred function, as an action of loop `l`. -/
def tdAct (l : Loop) (a : TdAct) : Action :=
  match l with
  | .read => .rd (.td a)
  | .write => .wr (.td a)
  | .callback => .cb (.td a)

/-- The deferred function of loop `l` run from its entry to the end of the
goroutine, together with the statements of the once body still to run. -/
def teardownSchedule (l : Loop) (o : Once) : List Action :=
  [tdAct l .logs, tdAct l .closeEnter] ++ List.replicate (4 - o.stage) .once ++
    [tdAct l .closeRet, tdAct l .wgDone]

/-- The dispatch loop receives `n` messages, `MessageCome` returning nil on
each. -/
def dispatchSchedule : Nat → List Action
  | 0 => []
  | n + 1 => .cb .recv :: .cb .cbRet :: dispatchSchedule n

/-- The write loop receives `n` buffers, `conn.Write` returning nil on each. -/
def writeSchedule : Nat → List Action
  | 0 => []
  | n + 1 => .wr .recv :: .wr .writeOk :: writeSchedule n

/-- The write loop is inside its loop body. -/
def writerRunning (s : Sys) : Prop :=
  s.wr = .start ∨ s.wr = .top ∨ ∃ b, s.wr = .writing b

/-- The dispatch loop is inside its loop body; when the hook is inside a
`WriteBytesToChan`, the write loop is inside its body too. -/
def dispatcherRunning (s : Sys) : Prop :=
  s.cb = .start ∨ s.cb = .top ∨ (∃ b, s.cb = .inCb b) ∨
    ((∃ b x, s.cb = .inCbWrite b x) ∧ writerRunning s)

/-- What the steps of the write loop and of the hook's send leave untouched on
the inbound side. -/
def SameInbound (s t : Sys) : Prop :=
  t.rd = s.rd ∧ t.receiveChan = s.receiveChan ∧ t.receiveLimit = s.receiveLimit ∧
  t.chanExit = s.chanExit ∧ t.closeChan = s.closeChan ∧
  dispatched t.trace = dispatched s.trace ∧ framesRead t.trace = framesRead s.trace

/-- Write-loop steps that bring the loop to its select, then drain the
outbound queue, every `conn.Write` returning nil. -/
def writerCatchUp (s : Sys) : List Action :=
  (match s.wr with
    | .start => [.wr .start]
    | .writing _ => [.wr .writeOk]
    | _ => []) ++ writeSchedule s.sendChan.length

/-- The dispatch loop drains the inbound queue from its select, then the read
loop completes its pending send and that frame is dispatched, every
`MessageCome` returning nil. -/
def drainSchedule (s : Sys) : List Action :=
  dispatchSchedule s.receiveChan.length ++
  (match s.rd with
    | .pushing _ =>
      if 0 < s.receiveLimit then [.rd .push, .cb .recv, .cb .cbRet] else [.rd .push, .cb .cbRet]
    | _ => [])

/-- Steps that bring the dispatch loop to its select (a hook inside
`WriteBytesToChan` first lets the write loop make room, sends and returns),
followed by `drainSchedule`. -/
def dispatcherCatchUp (s : Sys) : List Action :=
  (match s.cb with
    | .start => [.cb .start]
    | .inCb _ => [.cb .cbRet]
    | .inCbWrite _ _ => writerCatchUp s ++ [.cb .cbWriteSend, .cb .cbRet]
    | _ => []) ++ drainSchedule s

/-- Two frames have been read on a connection of inbound capacity one: the
first is queued, the read loop is sending the second. -/
def twoFramesSchedule : List Action :=
  [.go true, .rd .start, .cb .start, .rd .selDefault, .rd (.readOk (some [1])), .rd .push,
   .rd .selDefault, .rd (.readOk (some [2]))]

/-- State reached by `twoFramesSchedule`. -/
def twoFramesState : Sys :=
  { NewConn 1 1 with
    wg := 2, receiveChan := [some [1]], rd := .pushing (some [2]), wr := .start, cb := .top,
    trace := [.wgAdd .read, .wgAdd .callback, .readBytes (some [1]), .readBytes (some [2])] }

/-- Two buffers have been accepted on a connection of outbound capacity two. -/
def twoBuffersSchedule : List Action :=
  [.go true, .wr .start, .extSend (some [1]), .extSend (some [2])]

/-- State reached by `twoBuffersSchedule`. -/
def twoBuffersState : Sys :=
  { NewConn 2 1 with
    wg := 1, sendChan := [some [1], some [2]], rd := .start, wr := .top, cb := .start,
    trace := [.wgAdd .write, .enqueued (some [1]), .enqueued (some [2])] }

/-- The dispatch loop receives `n` messages on which `MessageCome` returns nil
and one on which it returns the error `e`, then runs its deferred function. -/
def fatalSchedule (n : Nat) (e : GoError) (o : Once) : List Action :=
  dispatchSchedule n ++ ([.cb .recv, .cb (.cbErr e)] ++ teardownSchedule .callback o)

/-- Three messages are queued for the dispatch loop on an open connection. -/
def threeQueuedSchedule : List Action :=
  [.go true, .rd .start, .cb .start, .rd .selDefault, .rd (.readOk (some [1])), .rd .push,
   .rd .selDefault, .rd (.readOk none), .rd .push, .rd .selDefault, .rd (.readOk (some [3])),
   .rd .push]

/-- State reached by `threeQueuedSchedule`. -/
def threeQueuedState : Sys :=
  { NewConn 1 3 with
    wg := 2, receiveChan := [some [1], none, some [3]], rd := .top, wr := .start, cb := .top,
    trace := [.wgAdd .read, .wgAdd .callback, .readBytes (some [1]), .readBytes none,
      .readBytes (some [3])] }

/-- State of the dispatch loop at the entry of its deferred function after
`MessageCome` returned nil on `pre` and the error `e` on `mk`. -/
def errorState (s : Sys) (pre post : List GoBytes) (mk : GoBytes) (e : GoError) : Sys :=
  { s with
    receiveChan := post, cb := .down (.deferred (some e) false),
    trace := s.trace ++ pre.map .messageCome ++ [.messageCome mk] ++ [.messageErr mk e] }

/-- A frame is being dispatched and `MessageCome` faults. -/
def hookPanicSchedule : List Action :=
  [.go true, .rd .start, .cb .start, .rd .selDefault, .rd (.readOk (some [1])), .rd .push,
   .cb .recv, .cb .cbPanic]

/-- State reached by `hookPanicSchedule`: the dispatch loop is at the entry of
its deferred function with a panic unwinding. -/
def hookPanicState : Sys :=
  { NewConn 1 1 with
    wg := 2, rd := .top, wr := .start, cb := .down (.deferred none true),
    trace := [.wgAdd .read, .wgAdd .callback, .readBytes (some [1]), .messageCome (some [1])] }

/-! ## Schedules and reachability -/


theorem run_append (as bs : List Action) (s : Sys) :
    run (as ++ bs) s = (run as s).bind (run bs) := by
  induction as generalizing s with
  | nil => simp [run]
  | cons a as ih =>
    simp only [List.cons_append, run]
    cases h : step a s with
    | none => simp
    | some t => simp [ih]

theorem run_append_some {as bs : List Action} {s t u : Sys}
    (h1 : run as s = some t) (h2 : run bs t = some u) : run (as ++ bs) s = some u := by
  simp [run_append, h1, h2]

theorem run_single {a : Action} {s t : Sys} (h : step a s = some t) : run [a] s = some t := by
  simp [run, h]

theorem Reachable.fresh (sl rl : Nat) : Reachable (NewConn sl rl) :=
  ⟨sl, rl, [], rfl⟩

theorem Reachable.run {s t : Sys} (as : List Action) (hs : Reachable s)
    (h : run as s = some t) : Reachable t := by
  obtain ⟨sl, rl, bs, hb⟩ := hs
  exact ⟨sl, rl, bs ++ as, run_append_some hb h⟩

theorem Reachable.step {s t : Sys} (a : Action) (hs : Reachable s)
    (h : step a s = some t) : Reachable t :=
  hs.run [a] (run_single h)

/-- A property kept by every step is kept by every schedule. -/
theorem run_invariant (P : Sys → Prop)
    (hstep : ∀ s a t, P s → step a s = some t → P t) :
    ∀ (as : List Action) (s t : Sys), P s → run as s = some t → P t := by
  intro as
  induction as with
  | nil => intro s t hp h; simp [run] at h; exact h ▸ hp
  | cons a as ih =>
    intro s t hp h
    simp only [run] at h
    cases hst : step a s with
    | none => simp [hst] at h
    | some u => rw [hst] at h; exact ih u t (hstep s a u hp hst) h

/-- A property of fresh connections kept by every step holds in every
reachable state. -/
theorem reachable_invariant (P : Sys → Prop) (h0 : ∀ sl rl, P (NewConn sl rl))
    (hstep : ∀ s a t, P s → step a s = some t → P t) :
    ∀ s, Reachable s → P s := by
  rintro s ⟨sl, rl, as, h⟩
  exact run_invariant P hstep as _ s (h0 sl rl) h

theorem framesRead_append (a b : List Event) :
    framesRead (a ++ b) = framesRead a ++ framesRead b := by
  simp [framesRead]

theorem dispatched_append (a b : List Event) :
    dispatched (a ++ b) = dispatched a ++ dispatched b := by
  simp [dispatched]

theorem accepted_append (a b : List Event) :
    accepted (a ++ b) = accepted a ++ accepted b := by
  simp [accepted]

theorem written_append (a b : List Event) :
    written (a ++ b) = written a ++ written b := by
  simp [written]

theorem errorsLogged_append (l : Loop) (a b : List Event) :
    errorsLogged l (a ++ b) = errorsLogged l a ++ errorsLogged l b := by
  simp [errorsLogged]

/-! ## Invariants are kept by every step -/

theorem map_some_inv {α β : Type} {f : α → β} {x : Option α} {b : β}
    (h : x.map f = some b) : ∃ a, x = some a ∧ f a = b := by
  cases x with
  | none => simp at h
  | some a => exact ⟨a, rfl, by simpa using h⟩

theorem onceInv_teardown (l : Loop) (a : TdAct) (t t1 : Teardown) (s s1 : Sys)
    (h : OnceInv s) (hs : teardown l a t s = some (t1, s1)) : OnceInv s1 := by
  unfold OnceInv at h ⊢
  cases a <;> simp only [teardown, closeEnter, recover] at hs <;> repeat' split at hs
  all_goals first | cases hs | skip
  all_goals try simp only [emit, List.count_append, List.count_cons, List.count_nil, beq_iff_eq,
    reduceCtorEq, if_false, if_true, add_zero, zero_add, Bool.false_eq_true]
  all_goals first | exact h | skip
  all_goals simp_all [Once.stage]

theorem onceInv_step (s : Sys) (a : Action) (t : Sys) (h : OnceInv s)
    (hs : step a s = some t) : OnceInv t := by
  rcases a with acc | _ | _ | b | _ | a | a | a
  case rd =>
    cases a
    case td a =>
      simp only [step, ReadInLoop] at hs
      split at hs
      · obtain ⟨⟨t1, s1⟩, hp, rfl⟩ := map_some_inv hs
        exact onceInv_teardown _ _ _ t1 _ s1 h hp
      · cases hs
    all_goals
      unfold OnceInv at h ⊢
      simp only [step, ReadInLoop, pushReceive] at hs
      repeat' split at hs
    all_goals first | cases hs | skip
    all_goals try simp only [emit, List.count_append, List.count_cons, List.count_nil, beq_iff_eq,
      reduceCtorEq, if_false, if_true, add_zero, zero_add, Bool.false_eq_true]
    all_goals first | exact h | skip
  case wr =>
    cases a
    case td a =>
      simp only [step, WriteInLoop] at hs
      split at hs
      · obtain ⟨⟨t1, s1⟩, hp, rfl⟩ := map_some_inv hs
        exact onceInv_teardown _ _ _ t1 _ s1 h hp
      · cases hs
    all_goals
      unfold OnceInv at h ⊢
      simp only [step, WriteInLoop] at hs
      repeat' split at hs
    all_goals first | cases hs | skip
    all_goals try simp only [emit, List.count_append, List.count_cons, List.count_nil, beq_iff_eq,
      reduceCtorEq, if_false, if_true, add_zero, zero_add, Bool.false_eq_true]
    all_goals first | exact h | skip
  case cb =>
    cases a
    case td a =>
      simp only [step, CallBackInLoop] at hs
      split at hs
      · obtain ⟨⟨t1, s1⟩, hp, rfl⟩ := map_some_inv hs
        exact onceInv_teardown _ _ _ t1 _ s1 h hp
      · cases hs
    all_goals
      unfold OnceInv at h ⊢
      simp only [step, CallBackInLoop, pushSend] at hs
      repeat' split at hs
    all_goals first | cases hs | skip
    all_goals try simp only [emit, List.count_append, List.count_cons, List.count_nil, beq_iff_eq,
      reduceCtorEq, if_false, if_true, add_zero, zero_add, Bool.false_eq_true]
    all_goals first | exact h | skip
  all_goals
    unfold OnceInv at h ⊢
    simp only [step, Go, closeEnter, pushSend, onceStep] at hs
    repeat' split at hs
  all_goals first | cases hs | skip
  all_goals try simp only [emit, List.count_append, List.count_cons, List.count_nil, beq_iff_eq,
    reduceCtorEq, if_false, if_true, add_zero, zero_add, Bool.false_eq_true]
  all_goals first | exact h | skip
  all_goals simp_all [Once.stage]

theorem fifo_teardown (l : Loop) (a : TdAct) (t t1 : Teardown) (s s1 : Sys)
    (hs : teardown l a t s = some (t1, s1)) :
    framesRead s1.trace = framesRead s.trace ∧ dispatched s1.trace = dispatched s.trace ∧
    accepted s1.trace = accepted s.trace ∧ written s1.trace = written s.trace ∧
    s1.receiveChan = s.receiveChan ∧ s1.sendChan = s.sendChan ∧
    s1.receiveLimit = s.receiveLimit ∧ s1.sendLimit = s.sendLimit ∧
    s1.rd = s.rd ∧ s1.wr = s.wr ∧ s1.cb = s.cb := by
  cases a <;> simp only [teardown, closeEnter, recover] at hs <;> repeat' split at hs
  all_goals first | cases hs | skip
  all_goals simp [emit, framesRead, dispatched, accepted, written]

theorem fifoInv_step (s : Sys) (a : Action) (t : Sys) (h : FifoInv s)
    (hs : step a s = some t) : FifoInv t := by
  unfold FifoInv at h ⊢
  rcases a with acc | _ | _ | b | _ | a | a | a
  case rd =>
    cases a
    case td a =>
      simp only [step, ReadInLoop] at hs
      split at hs
      · obtain ⟨⟨t1, s1⟩, hp, rfl⟩ := map_some_inv hs
        have := fifo_teardown _ _ _ _ _ _ hp
        simp_all [pendingPush]
      · cases hs
    all_goals
      simp only [step, ReadInLoop, pushReceive, receiveReady] at hs
      repeat' split at hs
    all_goals first | cases hs | skip
    all_goals simp_all [emit, framesRead_append, dispatched_append, accepted_append, written_append, pendingPush]
    all_goals try simp_all [framesRead, dispatched, accepted, written]
    all_goals try omega
  case wr =>
    cases a
    case td a =>
      simp only [step, WriteInLoop] at hs
      split at hs
      · obtain ⟨⟨t1, s1⟩, hp, rfl⟩ := map_some_inv hs
        have := fifo_teardown _ _ _ _ _ _ hp
        simp_all [pendingPush]
      · cases hs
    all_goals
      simp only [step, WriteInLoop] at hs
      repeat' split at hs
    all_goals first | cases hs | skip
    all_goals simp_all [emit, framesRead_append, dispatched_append, accepted_append, written_append, pendingPush]
    all_goals try simp_all [framesRead, dispatched, accepted, written]
    all_goals try omega
  case cb =>
    cases a
    case td a =>
      simp only [step, CallBackInLoop] at hs
      split at hs
      · obtain ⟨⟨t1, s1⟩, hp, rfl⟩ := map_some_inv hs
        have := fifo_teardown _ _ _ _ _ _ hp
        simp_all [pendingPush]
      · cases hs
    all_goals
      simp only [step, CallBackInLoop, pushSend, sendReady] at hs
      repeat' split at hs
    all_goals first | cases hs | skip
    all_goals simp_all [emit, framesRead_append, dispatched_append, accepted_append, written_append, pendingPush]
    all_goals try simp_all [framesRead, dispatched, accepted, written]
    all_goals try omega
  all_goals
    simp only [step, Go, closeEnter, pushSend, sendReady, onceStep] at hs
    repeat' split at hs
  all_goals first | cases hs | skip
  all_goals simp_all [emit, framesRead_append, dispatched_append, accepted_append, written_append, pendingPush]
  all_goals try simp_all [framesRead, dispatched, accepted, written]
  all_goals try omega

set_option maxHeartbeats 1000000 in
theorem loopInv_step (l : Loop) (s : Sys) (a : Action) (t : Sys) (h : LoopInv l s)
    (hs : step a s = some t) : LoopInv l t := by
  unfold LoopInv at h ⊢
  rcases a with acc | _ | _ | b | _ | a | a | a
  case rd =>
    cases a
    case td a =>
      cases a <;> simp only [step, ReadInLoop, teardown, closeEnter, recover] at hs
        <;> repeat' split at hs
      all_goals first | cases hs | skip
      all_goals cases l
      all_goals try simp only [emit, tdOf, started, exited, List.count_append, List.count_singleton,
        beq_iff_eq, reduceCtorEq, Event.wgAdd.injEq, Event.wgDone.injEq, ite_true, ite_false,
        add_zero, decide_eq_true_eq, Bool.false_eq_true, decide_False, decide_True] at h ⊢
      all_goals simp_all
    all_goals
      simp only [step, ReadInLoop, pushReceive, receiveReady] at hs
      repeat' split at hs
    all_goals first | cases hs | skip
    all_goals cases l
    all_goals try simp only [emit, tdOf, started, exited, List.count_append, List.count_singleton,
      beq_iff_eq, reduceCtorEq, Event.wgAdd.injEq, Event.wgDone.injEq, ite_true, ite_false,
      add_zero, decide_eq_true_eq, Bool.false_eq_true, decide_False, decide_True] at h ⊢
    all_goals simp_all
  case wr =>
    cases a
    case td a =>
      cases a <;> simp only [step, WriteInLoop, teardown, closeEnter, recover] at hs
        <;> repeat' split at hs
      all_goals first | cases hs | skip
      all_goals cases l
      all_goals try simp only [emit, tdOf, started, exited, List.count_append, List.count_singleton,
        beq_iff_eq, reduceCtorEq, Event.wgAdd.injEq, Event.wgDone.injEq, ite_true, ite_false,
        add_zero, decide_eq_true_eq, Bool.false_eq_true, decide_False, decide_True] at h ⊢
      all_goals simp_all
    all_goals
      simp only [step, WriteInLoop] at hs
      repeat' split at hs
    all_goals first | cases hs | skip
    all_goals cases l
    all_goals try simp only [emit, tdOf, started, exited, List.count_append, List.count_singleton,
      beq_iff_eq, reduceCtorEq, Event.wgAdd.injEq, Event.wgDone.injEq, ite_true, ite_false,
      add_zero, decide_eq_true_eq, Bool.false_eq_true, decide_False, decide_True] at h ⊢
    all_goals simp_all
  case cb =>
    cases a
    case td a =>
      cases a <;> simp only [step, CallBackInLoop, teardown, closeEnter, recover] at hs
        <;> repeat' split at hs
      all_goals first | cases hs | skip
      all_goals cases l
      all_goals try simp only [emit, tdOf, started, exited, List.count_append, List.count_singleton,
        beq_iff_eq, reduceCtorEq, Event.wgAdd.injEq, Event.wgDone.injEq, ite_true, ite_false,
        add_zero, decide_eq_true_eq, Bool.false_eq_true, decide_False, decide_True] at h ⊢
      all_goals simp_all
    all_goals
      simp only [step, CallBackInLoop, pushSend, sendReady] at hs
      repeat' split at hs
    all_goals first | cases hs | skip
    all_goals cases l
    all_goals try simp only [emit, tdOf, started, exited, List.count_append, List.count_singleton,
      beq_iff_eq, reduceCtorEq, Event.wgAdd.injEq, Event.wgDone.injEq, ite_true, ite_false,
      add_zero, decide_eq_true_eq, Bool.false_eq_true, decide_False, decide_True] at h ⊢
    all_goals simp_all
  all_goals
    simp only [step, Go, closeEnter, pushSend, sendReady, onceStep] at hs
    repeat' split at hs
  all_goals first | cases hs | skip
  all_goals cases l
  all_goals try simp only [emit, tdOf, started, exited, List.count_append, List.count_singleton,
    beq_iff_eq, reduceCtorEq, Event.wgAdd.injEq, Event.wgDone.injEq, ite_true, ite_false,
    add_zero, decide_eq_true_eq, Bool.false_eq_true, decide_False, decide_True] at h ⊢
  all_goals simp_all

set_option maxHeartbeats 1000000 in
theorem wgInv_step (s : Sys) (a : Action) (t : Sys) (h : WgInv s)
    (hs : step a s = some t) : WgInv t := by
  unfold WgInv wgAdds wgDones at h ⊢
  obtain ⟨h1, h2⟩ := h
  rcases a with acc | _ | _ | b | _ | a | a | a
  case rd =>
    cases a
    case td a =>
      cases a <;> simp only [step, ReadInLoop, teardown, closeEnter, recover] at hs
        <;> repeat' split at hs
      all_goals first | cases hs | skip
      all_goals try simp only [emit, List.count_append, List.count_singleton,
        beq_iff_eq, reduceCtorEq, Event.wgAdd.injEq, Event.wgDone.injEq, ite_true, ite_false,
        add_zero, Bool.or_false] at h1 h2 ⊢
      all_goals first | exact ⟨h1, h2⟩ | (refine ⟨h1, ?_⟩; push_cast; omega)
    all_goals
      simp only [step, ReadInLoop, pushReceive, receiveReady] at hs
      repeat' split at hs
    all_goals first | cases hs | skip
    all_goals try simp only [emit, List.count_append, List.count_singleton,
      beq_iff_eq, reduceCtorEq, Event.wgAdd.injEq, Event.wgDone.injEq, ite_true, ite_false,
      add_zero, Bool.or_false] at h1 h2 ⊢
    all_goals first | exact ⟨h1, h2⟩ | (refine ⟨h1, ?_⟩; push_cast; omega)
  case wr =>
    cases a
    case td a =>
      cases a <;> simp only [step, WriteInLoop, teardown, closeEnter, recover] at hs
        <;> repeat' split at hs
      all_goals first | cases hs | skip
      all_goals try simp only [emit, List.count_append, List.count_singleton,
        beq_iff_eq, reduceCtorEq, Event.wgAdd.injEq, Event.wgDone.injEq, ite_true, ite_false,
        add_zero, Bool.or_false] at h1 h2 ⊢
      all_goals first | exact ⟨h1, h2⟩ | (refine ⟨h1, ?_⟩; push_cast; omega)
    all_goals
      simp only [step, WriteInLoop] at hs
      repeat' split at hs
    all_goals first | cases hs | skip
    all_goals try simp only [emit, List.count_append, List.count_singleton,
      beq_iff_eq, reduceCtorEq, Event.wgAdd.injEq, Event.wgDone.injEq, ite_true, ite_false,
      add_zero, Bool.or_false] at h1 h2 ⊢
    all_goals first | exact ⟨h1, h2⟩ | (refine ⟨h1, ?_⟩; push_cast; omega)
  case cb =>
    cases a
    case td a =>
      cases a <;> simp only [step, CallBackInLoop, teardown, closeEnter, recover] at hs
        <;> repeat' split at hs
      all_goals first | cases hs | skip
      all_goals try simp only [emit, List.count_append, List.count_singleton,
        beq_iff_eq, reduceCtorEq, Event.wgAdd.injEq, Event.wgDone.injEq, ite_true, ite_false,
        add_zero, Bool.or_false] at h1 h2 ⊢
      all_goals first | exact ⟨h1, h2⟩ | (refine ⟨h1, ?_⟩; push_cast; omega)
    all_goals
      simp only [step, CallBackInLoop, pushSend, sendReady] at hs
      repeat' split at hs
    all_goals first | cases hs | skip
    all_goals try simp only [emit, List.count_append, List.count_singleton,
      beq_iff_eq, reduceCtorEq, Event.wgAdd.injEq, Event.wgDone.injEq, ite_true, ite_false,
      add_zero, Bool.or_false] at h1 h2 ⊢
    all_goals first | exact ⟨h1, h2⟩ | (refine ⟨h1, ?_⟩; push_cast; omega)
  all_goals
    simp only [step, Go, closeEnter, pushSend, sendReady, onceStep] at hs
    repeat' split at hs
  all_goals first | cases hs | skip
  all_goals try simp only [emit, List.count_append, List.count_singleton,
    beq_iff_eq, reduceCtorEq, Event.wgAdd.injEq, Event.wgDone.injEq, ite_true, ite_false,
    add_zero, Bool.or_false] at h1 h2 ⊢
  all_goals first | exact ⟨h1, h2⟩ | (refine ⟨h1, ?_⟩; push_cast; omega)

theorem onceInv_of_reachable (s : Sys) (h : Reachable s) : OnceInv s :=
  reachable_invariant OnceInv
    (fun sl rl => by simp [OnceInv, NewConn, Once.stage]) onceInv_step s h

theorem fifoInv_of_reachable (s : Sys) (h : Reachable s) : FifoInv s :=
  reachable_invariant FifoInv
    (fun sl rl => by
      simp [FifoInv, NewConn, framesRead, dispatched, accepted, written, pendingPush])
    fifoInv_step s h

theorem loopInv_of_reachable (l : Loop) (s : Sys) (h : Reachable s) : LoopInv l s :=
  reachable_invariant (LoopInv l)
    (fun sl rl => by cases l <;> simp [LoopInv, NewConn, started, exited, tdOf])
    (loopInv_step l) s h

theorem wgInv_of_reachable (s : Sys) (h : Reachable s) : WgInv s :=
  reachable_invariant WgInv
    (fun sl rl => by simp [WgInv, NewConn, wgAdds, wgDones]) wgInv_step s h

/-! ## Close and writes after close -/

theorem closeEnter_ne_idle (s : Sys) : (closeEnter s).once ≠ .idle := by
  unfold closeEnter
  split <;> simp_all

theorem runOnce_done (s : Sys) (h : s.once ≠ .idle) : (runOnce 4 s).once = .done := by
  cases ho : s.once <;> simp_all [runOnce, onceStep, emit]

theorem Close_done (s : Sys) : (Close s).once = .done :=
  runOnce_done _ (closeEnter_ne_idle s)

theorem Close_of_done (s : Sys) (h : s.once = .done) : Close s = s := by
  simp [Close, closeEnter, runOnce, onceStep, h]

theorem Close_run (s : Sys) : run (closeSchedule s.once) s = some (Close s) := by
  cases ho : s.once <;>
    simp [closeSchedule, Once.stage, List.replicate, run, step, Close, closeEnter, runOnce,
      onceStep, emit, ho]

theorem Close_reachable (s : Sys) (h : Reachable s) : Reachable (Close s) :=
  h.run _ (Close_run s)

theorem Close_iterate (s : Sys) (n : Nat) : Close^[n + 1] s = Close s := by
  induction n with
  | zero => rfl
  | succ k ih =>
    rw [Function.iterate_succ_apply', ih]
    exact Close_of_done _ (Close_done s)

theorem done_effects (s : Sys) (h : OnceInv s) (hd : s.once = .done) :
    s.closed = true ∧ s.closeChan = true ∧ s.connClosed = true ∧
    s.trace.count .setClosed = 1 ∧ s.trace.count .closeSignal = 1 ∧
    s.trace.count .connClose = 1 ∧ s.trace.count .closeCome = 1 := by
  unfold OnceInv at h
  simp_all [Once.stage]

theorem effects_le_one (s : Sys) (h : OnceInv s) :
    s.trace.count .setClosed ≤ 1 ∧ s.trace.count .closeSignal ≤ 1 ∧
    s.trace.count .connClose ≤ 1 ∧ s.trace.count .closeCome ≤ 1 := by
  unfold OnceInv at h
  obtain ⟨-, -, -, h4, h5, h6, h7⟩ := h
  rw [h4, h5, h6, h7]
  refine ⟨?_, ?_, ?_, ?_⟩ <;> split <;> simp

/-- C1. `Close` is idempotent and runs its effects exactly once. In every
reachable state (whatever interleaving of `Close` calls from the loops and from
outside led to it) `CloseCome`, the socket close and the close of `closeChan`
have each happened at most once; after `n + 1` calls of `Close` each has
happened exactly once, and a further call leaves the state unchanged. -/
theorem Close_idempotent_once (s : Sys) (hs : Reachable s) :
    (s.trace.count .closeCome ≤ 1 ∧ s.trace.count .connClose ≤ 1 ∧
      s.trace.count .closeSignal ≤ 1) ∧
    ∀ n : Nat,
      (Close^[n + 1] s).trace.count .closeCome = 1 ∧
      (Close^[n + 1] s).trace.count .connClose = 1 ∧
      (Close^[n + 1] s).trace.count .closeSignal = 1 ∧
      Close (Close^[n + 1] s) = Close^[n + 1] s := by
  have h0 := effects_le_one s (onceInv_of_reachable s hs)
  refine ⟨⟨h0.2.2.2, h0.2.2.1, h0.2.1⟩, fun n => ?_⟩
  rw [Close_iterate]
  have h1 := done_effects (Close s) (onceInv_of_reachable _ (Close_reachable s hs)) (Close_done s)
  exact ⟨h1.2.2.2.2.2.2, h1.2.2.2.2.2.1, h1.2.2.2.2.1, Close_of_done _ (Close_done s)⟩

theorem Close_idempotent_once_witness :
    Reachable (NewConn 1 1) ∧
    (Close^[3] (NewConn 1 1)).trace.count .closeCome = 1 ∧
    Close (Close^[3] (NewConn 1 1)) = Close^[3] (NewConn 1 1) :=
  ⟨Reachable.fresh 1 1,
    ((Close_idempotent_once (NewConn 1 1) (Reachable.fresh 1 1)).2 2).1,
    ((Close_idempotent_once (NewConn 1 1) (Reachable.fresh 1 1)).2 2).2.2.2⟩

/-- C2. After `Close` has returned, `IsClosed` is true and `WriteBytesToChan`
returns the closed-connection error for every buffer, whatever the occupancy
of the outbound queue: it returns (does not block) and the state, the queue
included, is unchanged. -/
theorem write_after_Close_fails (s : Sys) (hs : Reachable s) (bytes : GoBytes) (pick : Bool) :
    IsClosed (Close s) = true ∧
    WriteBytesToChan (Close s) bytes pick = .ret (some errClosed) (Close s) := by
  have h1 := done_effects (Close s) (onceInv_of_reachable _ (Close_reachable s hs)) (Close_done s)
  have hc : IsClosed (Close s) = true := h1.1
  exact ⟨hc, by simp [WriteBytesToChan, hc]⟩


theorem fullSendQueue_reachable : Reachable fullSendQueue :=
  ⟨1, 1, [.extSend (some [7])], by decide⟩

theorem write_after_Close_fails_witness :
    Reachable fullSendQueue ∧ fullSendQueue.sendChan.length = fullSendQueue.sendLimit ∧
    WriteBytesToChan (Close fullSendQueue) (some [9]) true =
      .ret (some errClosed) (Close fullSendQueue) :=
  ⟨fullSendQueue_reachable, by decide,
    (write_after_Close_fails fullSendQueue fullSendQueue_reachable (some [9]) true).2⟩

/-! ## Blocked read loop, unlogged read error, order of the close flags, default callback -/

theorem stuck_no_read_step (b : GoBytes) (s : Sys) (h : Stuck b s) (a : ReadAct) :
    step (.rd a) s = none := by
  obtain ⟨h1, h2, h3⟩ := h
  cases a <;> simp [step, ReadInLoop, h1, receiveReady, h2]
  omega

theorem stuck_step (b : GoBytes) (s : Sys) (a : Action) (t : Sys) (h : Stuck b s)
    (hs : step a s = some t) : Stuck b t := by
  unfold Stuck at h ⊢
  obtain ⟨h1, h2, h3⟩ := h
  rcases a with acc | _ | _ | x | _ | a | a | a
  case rd => rw [stuck_no_read_step b s ⟨h1, h2, h3⟩] at hs; cases hs
  case wr =>
    cases a
    case td a =>
      cases a <;> simp only [step, WriteInLoop, teardown, closeEnter, recover] at hs
        <;> repeat' split at hs
      all_goals first | cases hs | skip
      all_goals try simp only [emit]
      all_goals exact ⟨h1, h2, h3⟩
    all_goals
      simp only [step, WriteInLoop] at hs
      repeat' split at hs
    all_goals first | cases hs | skip
    all_goals try simp only [emit]
    all_goals exact ⟨h1, h2, h3⟩
  case cb =>
    cases a
    case td a =>
      cases a <;> simp only [step, CallBackInLoop, teardown, closeEnter, recover, h2] at hs
        <;> repeat' split at hs
      all_goals first | cases hs | skip
      all_goals simp_all
    all_goals
      simp only [step, CallBackInLoop, h2, reduceCtorEq, false_and, if_false] at hs
      repeat' split at hs
    all_goals first | cases hs | skip
  all_goals
    simp only [step, Go, closeEnter, pushSend, sendReady, onceStep] at hs
    repeat' split at hs
  all_goals first | cases hs | skip
  all_goals try simp only [emit]
  all_goals first | exact ⟨h1, h2, h3⟩ | simp_all

/-- C8 fails on the code. `stuckSchedule` is a real execution: both signals
have fired, the inbound queue is full, the read loop is at line 147, and from
then on, whatever the other goroutines and the environment do, the read loop
has no enabled step: it stays at line 147 and never reaches its teardown. -/
theorem readLoop_blocked_forever :
    run stuckSchedule (NewConn 1 1) = some stuckState ∧
    stuckState.chanExit = true ∧ stuckState.closeChan = true ∧
    stuckState.receiveChan.length = stuckState.receiveLimit ∧
    stuckState.rd = .pushing (some [2]) ∧
    ∀ (as : List Action) (t : Sys), run as stuckState = some t →
      t.rd = .pushing (some [2]) ∧ tdOf .read t = none ∧
      ∀ a : ReadAct, step (.rd a) t = none := by
  refine ⟨by decide, rfl, rfl, rfl, rfl, fun as t h => ?_⟩
  have hst : Stuck (some [2]) t :=
    run_invariant (Stuck (some [2])) (stuck_step (some [2])) as stuckState t
      ⟨rfl, rfl, by decide⟩ h
  exact ⟨hst.1, by simp [tdOf, hst.1], stuck_no_read_step _ t hst⟩

/-- C10 fails on the code for the read loop. When `ReadBytes` returns an
error the loop runs its whole teardown and the connection is closed, yet the
trace holds no error log entry at all: line 142 declares a new `err`, so the
test of line 103 reads the `err` of line 101, which is nil. -/
theorem readLoop_error_unlogged :
    (run readErrSchedule (NewConn 1 1)).map
        (fun s => (s.rd, IsClosed s, errorsLogged .read s.trace, s.trace)) =
      some (.down .exited, true, [],
        [.wgAdd .read, .setClosed, .closeSignal, .connClose, .closeCome, .wgDone .read]) := by
  decide

/-- C7 fails on the code as stated. The read loop's teardown has entered
`Close` and run line 59 only: `IsClosed` is already true while `closeChan` is
not closed and the socket is open. -/
theorem closed_visible_before_signal :
    (run midCloseSchedule (NewConn 1 1)).map
        (fun s => (IsClosed s, s.closeChan, s.connClosed)) =
      some (true, false, false) := by
  decide

/-- C7, in the form the code guarantees. In every reachable state the close
signal having fired implies `closed`, and the socket being closed implies that
the signal has fired; once the close path has completed, `closed` comes with
both; and in any state where `closed` is set the close path is under way, its
remaining statements being enabled and ending with the signal fired and the
socket closed. -/
theorem close_flags_ordered (s : Sys) (hs : Reachable s) :
    (s.closeChan = true → s.closed = true) ∧
    (s.connClosed = true → s.closeChan = true) ∧
    (s.once = .done → s.closed = true ∧ s.closeChan = true ∧ s.connClosed = true) ∧
    (s.closed = true →
      ∃ t, run (List.replicate (4 - s.once.stage) .once) s = some t ∧
        t.closed = true ∧ t.closeChan = true ∧ t.connClosed = true) := by
  have h := onceInv_of_reachable s hs
  unfold OnceInv at h
  obtain ⟨h1, h2, h3, -⟩ := h
  refine ⟨?_, ?_, ?_, ?_⟩
  · intro hc; rw [h2] at hc; rw [h1]; simp at hc ⊢; omega
  · intro hc; rw [h3] at hc; rw [h2]; simp at hc ⊢; omega
  · intro hd; simp [h1, h2, h3, hd, Once.stage]
  · intro hc
    rw [h1] at hc
    cases ho : s.once <;>
      simp_all [Once.stage, List.replicate, run, step, onceStep, emit]

theorem close_flags_ordered_witness :
    Reachable (Close (NewConn 2 2)) ∧ (Close (NewConn 2 2)).once = .done ∧
    ((Close (NewConn 2 2)).closed = true ∧ (Close (NewConn 2 2)).closeChan = true ∧
      (Close (NewConn 2 2)).connClosed = true) :=
  have hr : Reachable (Close (NewConn 2 2)) := Close_reachable _ (Reachable.fresh 2 2)
  ⟨hr, rfl, (close_flags_ordered (Close (NewConn 2 2)) hr).2.2.1 rfl⟩

/-- C9. The default `MessageCome` returns an error exactly when the buffer is
nil or empty, in every connection state; then the state is unchanged (nothing
is enqueued); otherwise its result is that of one call of `WriteBytesToChan` on
the same buffer with the error dropped, so that on an open connection with room
it returns nil and the outbound queue has grown by that buffer at its tail. -/
theorem default_MessageCome (s : Sys) (bytes : GoBytes) (pick : Bool) :
    ((∃ e t, MessageCome s bytes pick = .ret (some e) t) ↔ (bytes = none ∨ len bytes = 0)) ∧
    ((bytes = none ∨ len bytes = 0) →
      MessageCome s bytes pick = .ret (some "error package") s) ∧
    (¬(bytes = none ∨ len bytes = 0) →
      MessageCome s bytes pick = (WriteBytesToChan s bytes pick).discardErr) ∧
    (¬(bytes = none ∨ len bytes = 0) → IsClosed s = false → s.closeChan = false →
      s.sendChan.length < s.sendLimit →
      MessageCome s bytes pick =
        .ret none (emit (.enqueued bytes) { s with sendChan := s.sendChan ++ [bytes] })) := by
  refine ⟨⟨?_, ?_⟩, ?_, ?_, ?_⟩
  · rintro ⟨e, t, h⟩
    by_contra hb
    simp only [MessageCome, hb, if_false] at h
    cases hw : WriteBytesToChan s bytes pick <;> simp [hw, Outcome.discardErr] at h
  · intro hb
    exact ⟨"error package", s, by simp [MessageCome, hb]⟩
  · intro hb
    simp [MessageCome, hb]
  · intro hb
    simp [MessageCome, hb]
  · intro hb hc hs hroom
    simp [MessageCome, hb, WriteBytesToChan, hc, writeSelect, sendReady, hroom, hs, pushSend,
      Outcome.discardErr]

theorem default_MessageCome_witness :
    ¬((some [65] : GoBytes) = none ∨ len (some [65]) = 0) ∧
    IsClosed (NewConn 1 1) = false ∧ (NewConn 1 1).closeChan = false ∧
    (NewConn 1 1).sendChan.length < (NewConn 1 1).sendLimit ∧
    MessageCome (NewConn 1 1) (some [65]) true =
      .ret none (emit (.enqueued (some [65]))
        { NewConn 1 1 with sendChan := (NewConn 1 1).sendChan ++ [some [65]] }) :=
  ⟨by decide, rfl, rfl, by decide,
    (default_MessageCome (NewConn 1 1) (some [65]) true).2.2.2 (by decide) rfl rfl (by decide)⟩

/-! ## The teardown runs to its end -/

set_option maxHeartbeats 2000000 in
theorem teardown_completes (l : Loop) (s : Sys) (err : Option GoError) (p : Bool)
    (h : tdOf l s = some (.deferred err p)) :
    ∃ t, run (teardownSchedule l s.once) s = some t ∧ tdOf l t = some .exited ∧
      t.once = .done ∧ t.wg = s.wg - 1 ∧ t.crashed = s.crashed ∧
      dispatched t.trace = dispatched s.trace ∧ t.receiveChan = s.receiveChan ∧
      errorsLogged l t.trace = errorsLogged l s.trace ++ err.toList := by
  cases l
  case read =>
    cases hpc : s.rd <;> simp only [tdOf, hpc, reduceCtorEq, Option.some.injEq] at h
    subst h
    cases ho : s.once <;> cases err <;> cases p <;>
      simp [teardownSchedule, tdAct, Once.stage, List.replicate, run, step, ReadInLoop, teardown,
        closeEnter, recover, onceStep, emit, hpc, ho, tdOf, dispatched, errorsLogged]
  case write =>
    cases hpc : s.wr <;> simp only [tdOf, hpc, reduceCtorEq, Option.some.injEq] at h
    subst h
    cases ho : s.once <;> cases err <;> cases p <;>
      simp [teardownSchedule, tdAct, Once.stage, List.replicate, run, step, WriteInLoop, teardown,
        closeEnter, recover, onceStep, emit, hpc, ho, tdOf, dispatched, errorsLogged]
  case callback =>
    cases hpc : s.cb <;> simp only [tdOf, hpc, reduceCtorEq, Option.some.injEq] at h
    subst h
    cases ho : s.once <;> cases err <;> cases p <;>
      simp [teardownSchedule, tdAct, Once.stage, List.replicate, run, step, CallBackInLoop,
        teardown, closeEnter, recover, onceStep, emit, hpc, ho, tdOf, dispatched, errorsLogged]

/-- Once the dispatch loop has left its body no step invokes `MessageCome`. -/
theorem no_dispatch_after_exit (s : Sys) (a : Action) (t : Sys)
    (h : tdOf .callback s ≠ none) (hs : step a s = some t) :
    tdOf .callback t ≠ none ∧ dispatched t.trace = dispatched s.trace := by
  cases hpc : s.cb <;> simp only [tdOf, hpc, ne_eq, not_true_eq_false, reduceCtorEq,
    not_false_eq_true] at h
  rename_i td
  rcases a with acc | _ | _ | x | _ | a | a | a
  case rd =>
    cases a
    case td a =>
      cases a <;> simp only [step, ReadInLoop, teardown, closeEnter, recover] at hs
        <;> repeat' split at hs
      all_goals first | cases hs | skip
      all_goals simp [emit, tdOf, hpc, dispatched]
    all_goals
      simp only [step, ReadInLoop, pushReceive, receiveReady, hpc, reduceCtorEq, false_and,
        and_false, or_false] at hs
      repeat' split at hs
    all_goals first | cases hs | skip
    all_goals simp_all [emit, tdOf, dispatched]
  case wr =>
    cases a
    case td a =>
      cases a <;> simp only [step, WriteInLoop, teardown, closeEnter, recover] at hs
        <;> repeat' split at hs
      all_goals first | cases hs | skip
      all_goals simp [emit, tdOf, hpc, dispatched]
    all_goals
      simp only [step, WriteInLoop] at hs
      repeat' split at hs
    all_goals first | cases hs | skip
    all_goals simp [emit, tdOf, hpc, dispatched]
  case cb =>
    cases a
    case td a =>
      cases a <;> simp only [step, CallBackInLoop, teardown, closeEnter, recover, hpc] at hs
        <;> repeat' split at hs
      all_goals first | cases hs | skip
      all_goals simp_all [emit, tdOf, dispatched]
    all_goals
      simp only [step, CallBackInLoop, hpc, reduceCtorEq, false_and, if_false] at hs
      repeat' split at hs
    all_goals first | cases hs | skip
  all_goals
    simp only [step, Go, closeEnter, pushSend, sendReady, onceStep] at hs
    repeat' split at hs
  all_goals first | cases hs | skip
  all_goals simp_all [emit, tdOf, dispatched]

/-! ## Order of dispatch and of socket writes -/

theorem dispatch_run (q : List GoBytes) :
    ∀ (s : Sys) (rest : List GoBytes), s.cb = .top → s.receiveChan = q ++ rest →
      run (dispatchSchedule q.length) s =
        some { s with receiveChan := rest, trace := s.trace ++ q.map .messageCome } := by
  induction q with
  | nil =>
    intro s rest hcb hq
    cases s
    simp_all [dispatchSchedule, run]
  | cons b q ih =>
    intro s rest hcb hq
    simp only [List.length_cons, dispatchSchedule, run, step, CallBackInLoop, hq,
      List.cons_append, hcb, if_true, emit]
    rw [ih _ rest rfl rfl]
    cases s
    simp_all

theorem write_run (q : List GoBytes) :
    ∀ (s : Sys) (rest : List GoBytes), s.wr = .top → s.sendChan = q ++ rest →
      run (writeSchedule q.length) s =
        some { s with sendChan := rest, trace := s.trace ++ q.map .connWrite } := by
  induction q with
  | nil =>
    intro s rest hcb hq
    cases s
    simp_all [writeSchedule, run]
  | cons b q ih =>
    intro s rest hcb hq
    simp only [List.length_cons, writeSchedule, run, step, WriteInLoop, hq,
      List.cons_append, hcb, if_true, emit]
    rw [ih _ rest rfl rfl]
    cases s
    simp_all

theorem dispatched_messageCome (q : List GoBytes) :
    dispatched (q.map .messageCome) = q := by
  induction q with
  | nil => rfl
  | cons b q ih => simp_all [dispatched]

theorem framesRead_messageCome (q : List GoBytes) :
    framesRead (q.map .messageCome) = [] := by
  induction q with
  | nil => rfl
  | cons b q ih => simp_all [framesRead]

theorem written_connWrite (q : List GoBytes) :
    written (q.map .connWrite) = q := by
  induction q with
  | nil => rfl
  | cons b q ih => simp_all [written]

theorem accepted_connWrite (q : List GoBytes) :
    accepted (q.map .connWrite) = [] := by
  induction q with
  | nil => rfl
  | cons b q ih => simp_all [accepted]


theorem writer_catches_up (s : Sys) (h : writerRunning s) :
    ∃ t, run (writerCatchUp s) s = some t ∧ written t.trace = written s.trace ++ s.sendChan ∧
      accepted t.trace = accepted s.trace ∧ t.sendChan = [] ∧ t.wr = .top := by
  rcases h with h | h | ⟨b, h⟩
  · refine ⟨_, run_append_some (t := emit (.wgAdd .write) { s with wg := s.wg + 1, wr := .top })
      (by simp [h, run, step, WriteInLoop]) (write_run s.sendChan _ [] rfl (by simp [emit])), ?_⟩
    simp only [emit, written_append, accepted_append, written_connWrite, accepted_connWrite,
      List.append_nil, List.append_assoc]
    simp [written, accepted]
  · refine ⟨_, run_append_some (t := s)
      (by simp [h, run]) (write_run s.sendChan _ [] h (by simp)), ?_⟩
    simp [written_append, accepted_append, written_connWrite, accepted_connWrite, h]
  · refine ⟨_, run_append_some (t := { s with wr := .top })
      (by simp [h, run, step, WriteInLoop]) (write_run s.sendChan _ [] rfl (by simp)), ?_⟩
    simp [written_append, accepted_append, written_connWrite, accepted_connWrite]

/-- C4. Outbound buffers are written in the order they were accepted. In every
reachable state the buffers accepted by `WriteBytesToChan` are the payloads of
the socket writes issued so far followed by the content of the outbound queue
(no coalescing, splitting, duplication or reordering), the queue never exceeds
its capacity; and while the write loop is in its body, its own steps with every
`conn.Write` succeeding issue one write per accepted buffer, in order, until
none is left. -/
theorem outbound_written_in_order (s : Sys) (hs : Reachable s) :
    accepted s.trace = written s.trace ++ s.sendChan ∧
    s.sendChan.length ≤ s.sendLimit ∧
    (writerRunning s →
      ∃ t, run (writerCatchUp s) s = some t ∧ written t.trace = accepted s.trace ∧
        accepted t.trace = accepted s.trace ∧ t.sendChan = []) := by
  obtain ⟨-, -, h3, h4⟩ := fifoInv_of_reachable s hs
  refine ⟨h3, h4, fun hw => ?_⟩
  obtain ⟨t, h1, h2, h5, h6, -⟩ := writer_catches_up s hw
  exact ⟨t, h1, by rw [h2, h3], h5, h6⟩


theorem drain_from_top (s : Sys) (hcb : s.cb = .top) (hns : noSignal s) :
    ∃ t, run (drainSchedule s) s = some t ∧
      dispatched t.trace = dispatched s.trace ++ s.receiveChan ++ pendingPush s ∧
      framesRead t.trace = framesRead s.trace ∧ t.receiveChan = [] ∧ pendingPush t = [] := by
  have h2 := dispatch_run s.receiveChan s [] hcb (by simp)
  obtain ⟨hn1, hn2⟩ := hns
  cases hrd : s.rd
  case pushing b =>
    by_cases hlim : 0 < s.receiveLimit
    · simp only [drainSchedule, hrd, hlim, if_true, run_append, h2, Option.some_bind]
      simp only [run, step, ReadInLoop, receiveReady, pushReceive, CallBackInLoop, emit, hcb,
        hrd, List.length_nil, hlim, true_or, if_true, List.nil_append]
      refine ⟨_, rfl, ?_⟩
      simp only [dispatched_append, framesRead_append, dispatched_messageCome,
        framesRead_messageCome, pendingPush, hrd]
      simp [dispatched, framesRead]
    · simp only [drainSchedule, hrd, hlim, if_false, run_append, h2, Option.some_bind]
      simp only [run, step, ReadInLoop, receiveReady, pushReceive, CallBackInLoop, emit, hcb,
        hrd, List.length_nil, hlim, false_or, true_and, noSignal, hn1, hn2, and_self, if_true,
        if_false]
      refine ⟨_, rfl, ?_⟩
      simp only [dispatched_append, framesRead_append, dispatched_messageCome,
        framesRead_messageCome, pendingPush, hrd]
      simp [dispatched, framesRead]
  all_goals
    simp only [drainSchedule, hrd, List.append_nil, h2]
    refine ⟨_, rfl, ?_⟩
    simp [dispatched_append, framesRead_append, dispatched_messageCome,
      framesRead_messageCome, pendingPush, hrd]


theorem dispatched_connWrite (q : List GoBytes) : dispatched (q.map .connWrite) = [] := by
  induction q with
  | nil => rfl
  | cons b q ih => simp_all [dispatched]

theorem framesRead_connWrite (q : List GoBytes) : framesRead (q.map .connWrite) = [] := by
  induction q with
  | nil => rfl
  | cons b q ih => simp_all [framesRead]

theorem writer_catches_up_frame (s : Sys) (h : writerRunning s) :
    ∃ t, run (writerCatchUp s) s = some t ∧ t.sendChan = [] ∧ t.wr = .top ∧ t.cb = s.cb ∧
      SameInbound s t := by
  rcases h with h | h | ⟨b, h⟩
  · refine ⟨_, run_append_some (t := emit (.wgAdd .write) { s with wg := s.wg + 1, wr := .top })
      (by simp [h, run, step, WriteInLoop]) (write_run s.sendChan _ [] rfl (by simp [emit])), ?_⟩
    simp only [SameInbound, emit, dispatched_append, framesRead_append, dispatched_connWrite,
      framesRead_connWrite, List.append_nil, true_and]
    simp [dispatched, framesRead]
  · refine ⟨_, run_append_some (t := s)
      (by simp [h, run]) (write_run s.sendChan _ [] h (by simp)), ?_⟩
    simp [SameInbound, dispatched_append, framesRead_append, dispatched_connWrite,
      framesRead_connWrite, h]
  · refine ⟨_, run_append_some (t := { s with wr := .top })
      (by simp [h, run, step, WriteInLoop]) (write_run s.sendChan _ [] rfl (by simp)), ?_⟩
    simp [SameInbound, dispatched_append, framesRead_append, dispatched_connWrite,
      framesRead_connWrite]

theorem hook_write_completes (t : Sys) (b x : GoBytes) (hcb : t.cb = .inCbWrite b x)
    (hq : t.sendChan = []) (hw : t.wr = .top) (hns : noSignal t) :
    ∃ u, run [.cb .cbWriteSend, .cb .cbRet] t = some u ∧ u.cb = .top ∧ SameInbound t u := by
  obtain ⟨hn1, hn2⟩ := hns
  by_cases hlim : 0 < t.sendLimit
  · simp [run, step, CallBackInLoop, hcb, sendReady, hq, hlim, pushSend, emit, SameInbound,
      dispatched, framesRead]
  · simp [run, step, CallBackInLoop, hcb, sendReady, hq, hlim, hw, noSignal, hn1, hn2, pushSend,
      emit, SameInbound, dispatched, framesRead]


theorem SameInbound.noSignal {s t : Sys} (h : SameInbound s t) (hns : noSignal s) :
    noSignal t :=
  ⟨h.2.2.2.1.trans hns.1, h.2.2.2.2.1.trans hns.2⟩

theorem SameInbound.trans {s t u : Sys} (h1 : SameInbound s t) (h2 : SameInbound t u) :
    SameInbound s u := by
  obtain ⟨a1, a2, a3, a4, a5, a6, a7⟩ := h1
  obtain ⟨b1, b2, b3, b4, b5, b6, b7⟩ := h2
  exact ⟨b1.trans a1, b2.trans a2, b3.trans a3, b4.trans a4, b5.trans a5, b6.trans a6,
    b7.trans a7⟩

theorem SameInbound.drainSchedule {s t : Sys} (h : SameInbound s t) :
    drainSchedule t = drainSchedule s := by
  obtain ⟨a1, a2, a3, -⟩ := h
  simp [Service.drainSchedule, a1, a2, a3]

theorem SameInbound.pendingPush {s t : Sys} (h : SameInbound s t) :
    pendingPush t = pendingPush s := by
  simp [Service.pendingPush, h.1]

theorem dispatcher_catches_up (s : Sys) (h : dispatcherRunning s) (hns : noSignal s) :
    ∃ t, run (dispatcherCatchUp s) s = some t ∧
      dispatched t.trace = dispatched s.trace ++ s.receiveChan ++ pendingPush s ∧
      framesRead t.trace = framesRead s.trace ∧ t.receiveChan = [] ∧ pendingPush t = [] := by
  rcases h with h | h | ⟨b, h⟩ | ⟨⟨b, x, h⟩, hw⟩
  · obtain ⟨t, h1, h2, h3, h4⟩ :=
      drain_from_top (emit (.wgAdd .callback) { s with wg := s.wg + 1, cb := .top }) rfl hns
    refine ⟨t, ?_, ?_, ?_, h4⟩
    · simp only [dispatcherCatchUp, h, List.singleton_append, run, step, CallBackInLoop, if_true]
      exact h1
    · rw [h2]
      simp [emit, dispatched_append, dispatched, pendingPush]
    · rw [h3]
      simp [emit, framesRead_append, framesRead]
  · obtain ⟨t, h1, h2, h3, h4⟩ := drain_from_top s h hns
    exact ⟨t, by simpa [dispatcherCatchUp, h] using h1, h2, h3, h4⟩
  · obtain ⟨t, h1, h2, h3, h4⟩ := drain_from_top { s with cb := .top } rfl hns
    refine ⟨t, ?_, ?_, ?_, h4⟩
    · simp only [dispatcherCatchUp, h, List.singleton_append, run, step, CallBackInLoop]
      exact h1
    · rw [h2]
      simp [pendingPush]
    · rw [h3]
  · obtain ⟨t, h1, hq, hwt, hcb, hst⟩ := writer_catches_up_frame s hw
    obtain ⟨u, h2, hcu, htu⟩ :=
      hook_write_completes t b x (hcb.trans h) hq hwt (hst.noSignal hns)
    have hsu := hst.trans htu
    obtain ⟨v, h3, h4, h5, h6⟩ := drain_from_top u hcu (hsu.noSignal hns)
    rw [hsu.drainSchedule] at h3
    refine ⟨v, ?_, ?_, ?_, h6⟩
    · simp only [dispatcherCatchUp, h]
      exact run_append_some (run_append_some h1 h2) h3
    · rw [h4, hsu.2.2.2.2.2.1, hsu.2.1, hsu.pendingPush]
    · rw [h5, hsu.2.2.2.2.2.2]

/-- C3. Inbound messages are dispatched in arrival order. In every reachable
state the frames returned by `ReadBytes` are the arguments of the `MessageCome`
invocations so far, followed by the content of the inbound queue, followed by
the frame the read loop is sending (nothing dropped, duplicated or reordered);
the queue never exceeds its capacity; and while no signal has fired and the
dispatch loop is in its body (with the write loop in its body when the hook
is inside a `WriteBytesToChan`), the steps of the dispatch loop with every
`MessageCome` returning nil (and the pending send of the read loop) invoke
`MessageCome` on exactly the frames read, in order, until none is left. -/
theorem inbound_dispatched_in_order (s : Sys) (hs : Reachable s) :
    framesRead s.trace = dispatched s.trace ++ s.receiveChan ++ pendingPush s ∧
    s.receiveChan.length ≤ s.receiveLimit ∧
    (dispatcherRunning s → noSignal s →
      ∃ t, run (dispatcherCatchUp s) s = some t ∧ dispatched t.trace = framesRead s.trace ∧
        framesRead t.trace = framesRead s.trace ∧ t.receiveChan = [] ∧ pendingPush t = []) := by
  obtain ⟨h1, h2, -, -⟩ := fifoInv_of_reachable s hs
  refine ⟨h1, h2, fun hd hns => ?_⟩
  obtain ⟨t, h3, h4, h5, h6⟩ := dispatcher_catches_up s hd hns
  exact ⟨t, h3, by rw [h4, h1], h5, h6⟩


theorem twoFramesState_reachable : Reachable twoFramesState :=
  ⟨1, 1, twoFramesSchedule, by decide⟩

theorem inbound_dispatched_in_order_witness :
    Reachable twoFramesState ∧ dispatcherRunning twoFramesState ∧ noSignal twoFramesState ∧
    ∃ t, run (dispatcherCatchUp twoFramesState) twoFramesState = some t ∧
      dispatched t.trace = framesRead twoFramesState.trace ∧
      framesRead t.trace = framesRead twoFramesState.trace ∧ t.receiveChan = [] ∧
      pendingPush t = [] :=
  ⟨twoFramesState_reachable, Or.inr (Or.inl rfl), ⟨rfl, rfl⟩,
    (inbound_dispatched_in_order twoFramesState twoFramesState_reachable).2.2
      (Or.inr (Or.inl rfl)) ⟨rfl, rfl⟩⟩

theorem twoBuffersState_reachable : Reachable twoBuffersState :=
  ⟨2, 1, twoBuffersSchedule, by decide⟩

theorem outbound_written_in_order_witness :
    Reachable twoBuffersState ∧ writerRunning twoBuffersState ∧
    ∃ t, run (writerCatchUp twoBuffersState) twoBuffersState = some t ∧
      written t.trace = accepted twoBuffersState.trace ∧
      accepted t.trace = accepted twoBuffersState.trace ∧ t.sendChan = [] :=
  ⟨twoBuffersState_reachable, Or.inr (Or.inl rfl),
    (outbound_written_in_order twoBuffersState twoBuffersState_reachable).2.2
      (Or.inr (Or.inl rfl))⟩

/-! ## A callback error ends the connection -/

theorem errorsLogged_messageCome (l : Loop) (q : List GoBytes) :
    errorsLogged l (q.map .messageCome) = [] := by
  induction q with
  | nil => rfl
  | cons b q ih => simp_all [errorsLogged]


/-- C5. A callback error is fatal to the connection. With the dispatch loop
at its select and the inbound queue holding `pre`, then `mk`, then `post`, the
execution in which `MessageCome` returns nil on every message of `pre` and an
error on `mk` invokes `MessageCome` on `pre` and `mk`, once each and in order,
logs the error, returns and runs the teardown to its end: the loop has exited,
`IsClosed` is true, `CloseCome` has fired once and `post` is still queued; and
whatever happens afterwards, `MessageCome` is never invoked again. -/
theorem callback_error_fatal (s : Sys) (hs : Reachable s) (pre post : List GoBytes)
    (mk : GoBytes) (e : GoError) (htop : s.cb = .top)
    (hq : s.receiveChan = pre ++ mk :: post) :
    ∃ t, run (fatalSchedule pre.length e s.once) s = some t ∧
      dispatched t.trace = dispatched s.trace ++ pre ++ [mk] ∧
      tdOf .callback t = some .exited ∧ IsClosed t = true ∧ t.trace.count .closeCome = 1 ∧
      errorsLogged .callback t.trace = errorsLogged .callback s.trace ++ [e] ∧
      t.receiveChan = post ∧
      ∀ (as : List Action) (u : Sys), run as t = some u →
        dispatched u.trace = dispatched t.trace ∧ tdOf .callback u ≠ none := by
  have h2 := dispatch_run pre s (mk :: post) htop hq
  obtain ⟨t, h3, h4, h5, -, -, h6, h7, h8⟩ := teardown_completes .callback
    (errorState s pre post mk e) (some e) false rfl
  have h3a : run (teardownSchedule .callback s.once) (errorState s pre post mk e) = some t := h3
  have hrun : run (fatalSchedule pre.length e s.once) s = some t := by
    refine run_append_some h2 (run_append_some (t := errorState s pre post mk e) ?_ h3a)
    simp [run, step, CallBackInLoop, htop, emit, errorState]
  have hr : Reachable t := hs.run _ hrun
  have hd := done_effects t (onceInv_of_reachable t hr) h5
  refine ⟨t, hrun, ?_, h4, hd.1, hd.2.2.2.2.2.2, ?_, h7, ?_⟩
  · rw [h6]
    simp only [errorState, dispatched_append, dispatched_messageCome]
    simp [dispatched]
  · rw [h8]
    simp only [errorState, errorsLogged_append, errorsLogged_messageCome]
    simp [errorsLogged]
  · intro as u hu
    have := run_invariant
      (fun u => tdOf .callback u ≠ none ∧ dispatched u.trace = dispatched t.trace)
      (fun a b c hp hst => by
        have := no_dispatch_after_exit a b c hp.1 hst
        exact ⟨this.1, this.2.trans hp.2⟩)
      as t u ⟨by simp [h4], rfl⟩ hu
    exact ⟨this.2, this.1⟩

theorem threeQueuedState_reachable : Reachable threeQueuedState :=
  ⟨1, 3, threeQueuedSchedule, by decide⟩

theorem callback_error_fatal_witness :
    Reachable threeQueuedState ∧ threeQueuedState.cb = .top ∧
    threeQueuedState.receiveChan = [some [1]] ++ none :: [some [3]] ∧
    ∃ t, run (fatalSchedule 1 "error package" threeQueuedState.once) threeQueuedState = some t ∧
      dispatched t.trace = dispatched threeQueuedState.trace ++ [some [1]] ++ [none] ∧
      tdOf .callback t = some .exited ∧ IsClosed t = true ∧ t.trace.count .closeCome = 1 ∧
      errorsLogged .callback t.trace =
        errorsLogged .callback threeQueuedState.trace ++ ["error package"] ∧
      t.receiveChan = [some [3]] ∧
      ∀ (as : List Action) (u : Sys), run as t = some u →
        dispatched u.trace = dispatched t.trace ∧ tdOf .callback u ≠ none :=
  ⟨threeQueuedState_reachable, rfl, rfl,
    callback_error_fatal threeQueuedState threeQueuedState_reachable [some [1]] [some [3]] none
      "error package" rfl rfl⟩

/-! ## Every loop guarantees a close -/

set_option maxHeartbeats 2000000 in
/-- A loop leaves its body only into the entry of its deferred function. -/
theorem body_exit_enters_deferred (l : Loop) (s : Sys) (a : Action) (t : Sys)
    (h : tdOf l s = none) (hs : step a s = some t) :
    tdOf l t = none ∨ ∃ err p, tdOf l t = some (.deferred err p) := by
  rcases a with acc | _ | _ | x | _ | a | a | a
  case rd =>
    cases a
    case td a =>
      cases a <;> simp only [step, ReadInLoop, teardown, closeEnter, recover] at hs
        <;> repeat' split at hs
      all_goals first | cases hs | skip
      all_goals cases l
      all_goals simp_all [emit, tdOf]
    all_goals
      simp only [step, ReadInLoop, pushReceive, receiveReady] at hs
      repeat' split at hs
    all_goals first | cases hs | skip
    all_goals cases l
    all_goals simp_all [emit, tdOf]
  case wr =>
    cases a
    case td a =>
      cases a <;> simp only [step, WriteInLoop, teardown, closeEnter, recover] at hs
        <;> repeat' split at hs
      all_goals first | cases hs | skip
      all_goals cases l
      all_goals simp_all [emit, tdOf]
    all_goals
      simp only [step, WriteInLoop] at hs
      repeat' split at hs
    all_goals first | cases hs | skip
    all_goals cases l
    all_goals simp_all [emit, tdOf]
  case cb =>
    cases a
    case td a =>
      cases a <;> simp only [step, CallBackInLoop, teardown, closeEnter, recover] at hs
        <;> repeat' split at hs
      all_goals first | cases hs | skip
      all_goals cases l
      all_goals simp_all [emit, tdOf]
    all_goals
      simp only [step, CallBackInLoop, pushSend, sendReady] at hs
      repeat' split at hs
    all_goals first | cases hs | skip
    all_goals cases l
    all_goals simp_all [emit, tdOf]
  all_goals
    simp only [step, Go, closeEnter, pushSend, sendReady, onceStep] at hs
    repeat' split at hs
  all_goals first | cases hs | skip
  all_goals cases l
  all_goals simp_all [emit, tdOf]

theorem exited_started (l : Loop) (s : Sys) (h : exited l s = true) : started l s = true := by
  cases l
  · cases hpc : s.rd <;> simp_all [exited, tdOf, started]
  · cases hpc : s.wr <;> simp_all [exited, tdOf, started]
  · cases hpc : s.cb <;> simp_all [exited, tdOf, started]

/-- C6. Every loop guarantees a close. For each loop, in every reachable
state: no panic has escaped a goroutine; the loop has called `wg.Add` once if
it has started and `wg.Done` once if it has exited, and the wait counter is
the number of `Add` minus the number of `Done`; a loop that has exited has
returned from `Close`, so the connection is closed and `CloseCome` has fired
once; a loop leaves its body, however that happens (signal, error or fault),
only into the entry of its deferred function; and from that entry, for every
value of the outer `err` and whether or not a panic is unwinding, the deferred
function runs to the end of the goroutine: the panic is recovered, `Close` has
returned, and the wait counter has been decremented once, matching the single
increment. -/
theorem every_loop_guarantees_close (l : Loop) (s : Sys) (hs : Reachable s) :
    s.crashed = false ∧
    s.trace.count (.wgAdd l) = (if started l s then 1 else 0) ∧
    s.trace.count (.wgDone l) = (if exited l s then 1 else 0) ∧
    s.wg = (wgAdds s.trace : Int) - (wgDones s.trace : Int) ∧
    (exited l s = true →
      started l s = true ∧ IsClosed s = true ∧ s.trace.count .closeCome = 1) ∧
    (∀ (a : Action) (t : Sys), tdOf l s = none → step a s = some t →
      tdOf l t = none ∨ ∃ err p, tdOf l t = some (.deferred err p)) ∧
    (∀ (err : Option GoError) (p : Bool), tdOf l s = some (.deferred err p) →
      ∃ t, run (teardownSchedule l s.once) s = some t ∧ exited l t = true ∧
        t.crashed = false ∧ IsClosed t = true ∧ t.trace.count .closeCome = 1 ∧
        t.wg = s.wg - 1 ∧ t.trace.count (.wgAdd l) = 1 ∧ t.trace.count (.wgDone l) = 1) := by
  obtain ⟨hc, hw⟩ := wgInv_of_reachable s hs
  obtain ⟨ha, hd, hcl⟩ := loopInv_of_reachable l s hs
  refine ⟨hc, ha, hd, hw, ?_, ?_, ?_⟩
  · intro he
    have hdone : s.once = .done := hcl (Or.inr (by simpa [exited] using he))
    have := done_effects s (onceInv_of_reachable s hs) hdone
    exact ⟨exited_started l s he, this.1, this.2.2.2.2.2.2⟩
  · intro a t h hst
    exact body_exit_enters_deferred l s a t h hst
  · intro err p h
    obtain ⟨t, h1, h2, h3, h4, h5, -⟩ := teardown_completes l s err p h
    have hr : Reachable t := hs.run _ h1
    have he : exited l t = true := by simp [exited, h2]
    have hdn := done_effects t (onceInv_of_reachable t hr) h3
    obtain ⟨ha2, hd2, -⟩ := loopInv_of_reachable l t hr
    refine ⟨t, h1, he, h5.trans hc, hdn.1, hdn.2.2.2.2.2.2, h4, ?_, ?_⟩
    · rw [ha2, exited_started l t he]; rfl
    · rw [hd2, he]; rfl

theorem hookPanicState_reachable : Reachable hookPanicState :=
  ⟨1, 1, hookPanicSchedule, by decide⟩

theorem every_loop_guarantees_close_witness :
    Reachable hookPanicState ∧ tdOf .callback hookPanicState = some (.deferred none true) ∧
    ∃ t, run (teardownSchedule .callback hookPanicState.once) hookPanicState = some t ∧
      exited .callback t = true ∧ t.crashed = false ∧ IsClosed t = true ∧
      t.trace.count .closeCome = 1 ∧ t.wg = hookPanicState.wg - 1 ∧
      t.trace.count (.wgAdd .callback) = 1 ∧ t.trace.count (.wgDone .callback) = 1 :=
  ⟨hookPanicState_reachable, rfl,
    (every_loop_guarantees_close .callback hookPanicState hookPanicState_reachable).2.2.2.2.2.2
      none true rfl⟩

end Service
